import Mathlib

/-!
Verification of the Braille conversion engine of `vibe_braille`
(`src/converters/BrailleConverter.ts`), shallowly embedded in Lean.

Modelling conventions:
* a JavaScript string is a `List Char` (one entry per Unicode code point,
  matching `for (const char of text)` iteration);
* the `unicode` field of a record, a one-character string in the source,
  is represented by its Unicode code point as a `Nat`
  (`String.fromCharCode(code)` in the source is the character with that
  code point; the space and newline records store the literal characters
  U+0020 and U+000A);
* the static lookup-table object literals are association lists searched
  with `List.lookup`, which returns the value of the first matching key,
  exactly as JavaScript property lookup does for these literal tables
  (all keys are distinct);
* `null` results of the per-script converters are `Option.none`.
-/

namespace VibeBraille

/-- The language tags of `detectLanguage`; `convertToBraille` accepts the
first three via an optional argument modelled as `Option Language`. -/
inductive Language where
  | korean
  | english
  | japanese
  | mixed
deriving DecidableEq

/-- The `BraillePattern` interface: source character, code point of the
one-character `unicode` string, and the dot-number array. -/
structure BraillePattern where
  char : Char
  unicode : Nat
  dots : List Nat
deriving DecidableEq

/-- Per-dot increment of the `switch` statement inside `dotsToUnicode`:
dots 1..8 contribute their bit value, anything else contributes nothing. -/
def dotBit (dot : Nat) : Nat :=
  match dot with
  | 1 => 0x01
  | 2 => 0x02
  | 3 => 0x04
  | 4 => 0x08
  | 5 => 0x10
  | 6 => 0x20
  | 7 => 0x40
  | 8 => 0x80
  | _ => 0

/-- Source `dotsToUnicode`: starts from `0x2800` and adds (`+=`, not
bitwise or) the bit value of every entry of the dots array, returning the
code point of the produced one-character string. -/
def dotsToUnicode (dots : List Nat) : Nat :=
  dots.foldl (fun code dot => code + dotBit dot) 0x2800

/-- The regex `/[가-힣]/` character test (Hangul syllable block
U+AC00..U+D7A3). -/
def isHangulSyllable (c : Char) : Bool :=
  0xAC00 ≤ c.toNat && c.toNat ≤ 0xD7A3

/-- The regex test for Hiragana (U+3040..U+309F) or Katakana
(U+30A0..U+30FF), two contiguous blocks. -/
def isKana (c : Char) : Bool :=
  (0x3040 ≤ c.toNat && c.toNat ≤ 0x309F) || (0x30A0 ≤ c.toNat && c.toNat ≤ 0x30FF)

/-- The regex `/[a-zA-Z]/` character test. -/
def isLatinLetter (c : Char) : Bool :=
  (0x61 ≤ c.toNat && c.toNat ≤ 0x7A) || (0x41 ≤ c.toNat && c.toNat ≤ 0x5A)

/-- The regex `/[a-zA-Z0-9]/` character test. -/
def isAlphanumeric (c : Char) : Bool :=
  isLatinLetter c || (0x30 ≤ c.toNat && c.toNat ≤ 0x39)

/-- Source `detectLanguage`: three presence booleans, `mixed` when more
than one holds, otherwise the single matching tag, defaulting to
`english`. -/
def detectLanguage (text : List Char) : Language :=
  let hasKorean := text.any isHangulSyllable
  let hasJapanese := text.any isKana
  let hasEnglish := text.any isLatinLetter
  let count := ([hasKorean, hasJapanese, hasEnglish].filter (fun b => b)).length
  if 1 < count then .mixed
  else if hasKorean then .korean
  else if hasJapanese then .japanese
  else if hasEnglish then .english
  else .english

/-- The `koreanBrailleMap` table literal of `convertKoreanChar`:
consonant and vowel jamo plus five hard-coded precomposed syllables. -/
def koreanBrailleMap : List (Char × List Nat) :=
  [('ㄱ', [1, 4]),
   ('ㄴ', [1, 4, 5]),
   ('ㄷ', [2, 4]),
   ('ㄹ', [5]),
   ('ㅁ', [1, 5]),
   ('ㅂ', [1, 2]),
   ('ㅅ', [6]),
   ('ㅇ', [1, 2, 4, 5, 6]),
   ('ㅈ', [4]),
   ('ㅊ', [5, 6]),
   ('ㅋ', [1, 2, 5]),
   ('ㅌ', [1, 2, 5, 6]),
   ('ㅍ', [1, 4, 5, 6]),
   ('ㅎ', [2, 5, 6]),
   ('ㅏ', [1, 2, 6]),
   ('ㅑ', [3, 4, 5]),
   ('ㅓ', [2, 3, 4]),
   ('ㅕ', [1, 3, 6]),
   ('ㅗ', [1, 3, 6]),
   ('ㅛ', [3, 4, 6]),
   ('ㅜ', [1, 3, 4]),
   ('ㅠ', [1, 3, 4, 6]),
   ('ㅡ', [2, 4, 6]),
   ('ㅣ', [1, 3, 5]),
   ('안', [1, 2, 4, 5, 6]),
   ('녕', [1, 4, 5, 1, 2, 6]),
   ('하', [2, 5, 6, 1, 2, 6]),
   ('세', [6, 2, 3, 4]),
   ('요', [3, 4, 6])]

/-- The `englishBrailleMap` table literal of `convertEnglishChar`:
lowercase and uppercase letters and digits. -/
def englishBrailleMap : List (Char × List Nat) :=
  [('a', [1]), ('b', [1, 2]), ('c', [1, 4]), ('d', [1, 4, 5]), ('e', [1, 5]),
   ('f', [1, 2, 4]), ('g', [1, 2, 4, 5]), ('h', [1, 2, 5]), ('i', [2, 4]), ('j', [2, 4, 5]),
   ('k', [1, 3]), ('l', [1, 2, 3]), ('m', [1, 3, 4]), ('n', [1, 3, 4, 5]), ('o', [1, 3, 5]),
   ('p', [1, 2, 3, 4]), ('q', [1, 2, 3, 4, 5]), ('r', [1, 2, 3, 5]), ('s', [2, 3, 4]), ('t', [2, 3, 4, 5]),
   ('u', [1, 3, 6]), ('v', [1, 2, 3, 6]), ('w', [2, 4, 5, 6]), ('x', [1, 3, 4, 6]), ('y', [1, 3, 4, 5, 6]),
   ('z', [1, 3, 5, 6]),
   ('A', [6, 1]), ('B', [6, 1, 2]), ('C', [6, 1, 4]), ('D', [6, 1, 4, 5]), ('E', [6, 1, 5]),
   ('F', [6, 1, 2, 4]), ('G', [6, 1, 2, 4, 5]), ('H', [6, 1, 2, 5]), ('I', [6, 2, 4]), ('J', [6, 2, 4, 5]),
   ('K', [6, 1, 3]), ('L', [6, 1, 2, 3]), ('M', [6, 1, 3, 4]), ('N', [6, 1, 3, 4, 5]), ('O', [6, 1, 3, 5]),
   ('P', [6, 1, 2, 3, 4]), ('Q', [6, 1, 2, 3, 4, 5]), ('R', [6, 1, 2, 3, 5]), ('S', [6, 2, 3, 4]), ('T', [6, 2, 3, 4, 5]),
   ('U', [6, 1, 3, 6]), ('V', [6, 1, 2, 3, 6]), ('W', [6, 2, 4, 5, 6]), ('X', [6, 1, 3, 4, 6]), ('Y', [6, 1, 3, 4, 5, 6]),
   ('Z', [6, 1, 3, 5, 6]),
   ('1', [3, 4, 5, 6, 1]), ('2', [3, 4, 5, 6, 1, 2]), ('3', [3, 4, 5, 6, 1, 4]), ('4', [3, 4, 5, 6, 1, 4, 5]), ('5', [3, 4, 5, 6, 1, 5]),
   ('6', [3, 4, 5, 6, 1, 2, 4]), ('7', [3, 4, 5, 6, 1, 2, 4, 5]), ('8', [3, 4, 5, 6, 1, 2, 5]), ('9', [3, 4, 5, 6, 2, 4]), ('0', [3, 4, 5, 6, 2, 4, 5])]

/-- The `japaneseBrailleMap` table literal of `convertJapaneseChar`:
hiragana plus the first ten katakana. -/
def japaneseBrailleMap : List (Char × List Nat) :=
  [('あ', [1]), ('い', [1, 2]), ('う', [1, 4]), ('え', [1, 2, 4]), ('お', [2, 4]),
   ('か', [1, 6]), ('き', [1, 2, 6]), ('く', [1, 4, 6]), ('け', [1, 2, 4, 6]), ('こ', [2, 4, 6]),
   ('さ', [1, 5, 6]), ('し', [1, 2, 5, 6]), ('す', [1, 4, 5, 6]), ('せ', [1, 2, 4, 5, 6]), ('そ', [2, 4, 5, 6]),
   ('た', [1, 3, 6]), ('ち', [1, 2, 3, 6]), ('つ', [1, 3, 4, 6]), ('て', [1, 2, 3, 4, 6]), ('と', [2, 3, 4, 6]),
   ('な', [1, 3, 5, 6]), ('に', [1, 2, 3, 5, 6]), ('ぬ', [1, 3, 4, 5, 6]), ('ね', [1, 2, 3, 4, 5, 6]), ('の', [2, 3, 4, 5, 6]),
   ('は', [1, 3]), ('ひ', [1, 2, 3]), ('ふ', [1, 3, 4]), ('へ', [1, 2, 3, 4]), ('ほ', [2, 3, 4]),
   ('ま', [1, 3, 5]), ('み', [1, 2, 3, 5]), ('む', [1, 3, 4, 5]), ('め', [1, 2, 3, 4, 5]), ('も', [2, 3, 4, 5]),
   ('や', [3, 4]), ('ゆ', [3, 4, 6]), ('よ', [3, 4, 5]),
   ('ら', [1, 5]), ('り', [1, 2, 5]), ('る', [1, 4, 5]), ('れ', [1, 2, 4, 5]), ('ろ', [2, 4, 5]),
   ('わ', [3]), ('ん', [3, 5, 6]),
   ('ア', [1]), ('イ', [1, 2]), ('ウ', [1, 4]), ('エ', [1, 2, 4]), ('オ', [2, 4]),
   ('カ', [1, 6]), ('キ', [1, 2, 6]), ('ク', [1, 4, 6]), ('ケ', [1, 2, 4, 6]), ('コ', [2, 4, 6])]

/-- The `punctuationMap` table literal of `convertPunctuation`. -/
def punctuationMap : List (Char × List Nat) :=
  [('.', [2, 5, 6]),
   (',', [2]),
   ('?', [2, 6]),
   ('!', [2, 3, 5]),
   (':', [2, 5]),
   (';', [2, 3]),
   ('-', [3, 6]),
   ('(', [2, 3, 6]),
   (')', [3, 5, 6]),
   ('\x22', [2, 3, 6]),
   ('\x27', [3])]

/-- Source `convertKoreanChar`: table lookup; a hit builds a pattern, a
miss returns `null`. -/
def convertKoreanChar (c : Char) : Option BraillePattern :=
  match koreanBrailleMap.lookup c with
  | some dots => some { char := c, unicode := dotsToUnicode dots, dots := dots }
  | none => none

/-- Source `convertEnglishChar`: table lookup; a hit builds a pattern, a
miss returns `null`. -/
def convertEnglishChar (c : Char) : Option BraillePattern :=
  match englishBrailleMap.lookup c with
  | some dots => some { char := c, unicode := dotsToUnicode dots, dots := dots }
  | none => none

/-- Source `convertJapaneseChar`: table lookup; a hit builds a pattern, a
miss returns `null`. -/
def convertJapaneseChar (c : Char) : Option BraillePattern :=
  match japaneseBrailleMap.lookup c with
  | some dots => some { char := c, unicode := dotsToUnicode dots, dots := dots }
  | none => none

/-- Source `convertPunctuation`: table lookup; a hit builds a pattern, a
miss returns `null`. -/
def convertPunctuation (c : Char) : Option BraillePattern :=
  match punctuationMap.lookup c with
  | some dots => some { char := c, unicode := dotsToUnicode dots, dots := dots }
  | none => none

/-- The `pattern` variable of the loop body of `convertToBraille`: the
script-dispatch chain (Hangul syllable, then kana, then alphanumeric,
then punctuation). -/
def classifyPattern (c : Char) : Option BraillePattern :=
  if isHangulSyllable c then convertKoreanChar c
  else if isKana c then convertJapaneseChar c
  else if isAlphanumeric c then convertEnglishChar c
  else convertPunctuation c

/-- One iteration of the `for (const char of text)` loop of
`convertToBraille`: space/tab and newline records first, then the
dispatch chain, then the `[2, 6]` fallback when no rule produced a
pattern. -/
def convertChar (c : Char) : BraillePattern :=
  if c = ' ' ∨ c = '\t' then { char := c, unicode := 0x20, dots := [] }
  else if c = '\n' then { char := c, unicode := 0x0A, dots := [] }
  else
    match classifyPattern c with
    | some p => p
    | none => { char := c, unicode := dotsToUnicode [2, 6], dots := [2, 6] }

/-- Source `convertToBraille`: computes `detectedLang` (unused, kept from
the source) and pushes one converted record per input character. -/
def convertToBraille (text : List Char) (language : Option Language) : List BraillePattern :=
  let _detectedLang := language.getD (detectLanguage text)
  text.map convertChar

/-- Every dots list reachable through a table hit: the values of the four
lookup tables. -/
def allDotLists : List (List Nat) :=
  (koreanBrailleMap ++ japaneseBrailleMap ++ englishBrailleMap ++ punctuationMap).map Prod.snd

/-- Modelled from the claim wording of language detection: three presence
booleans; two or more true gives `mixed`; exactly one true gives its tag;
none gives `english`. -/
def detectLanguageSpec (text : List Char) : Language :=
  let hasKorean := text.any isHangulSyllable
  let hasJapanese := text.any isKana
  let hasEnglish := text.any isLatinLetter
  let trueCount := (if hasKorean then 1 else 0) + (if hasJapanese then 1 else 0) +
    (if hasEnglish then 1 else 0)
  if 2 ≤ trueCount then .mixed
  else if hasKorean then .korean
  else if hasJapanese then .japanese
  else if hasEnglish then .english
  else .english

/-- A character matched by no rule and no table: not space, tab or
newline, and absent from all four lookup tables. -/
def unmatchedChar (c : Char) : Prop :=
  c ≠ ' ' ∧ c ≠ '\t' ∧ c ≠ '\n' ∧
  koreanBrailleMap.lookup c = none ∧ japaneseBrailleMap.lookup c = none ∧
  englishBrailleMap.lookup c = none ∧ punctuationMap.lookup c = none

instance (c : Char) : Decidable (unmatchedChar c) := by
  unfold unmatchedChar; infer_instance

/-- Folding the per-dot addition from any accumulator adds the sum of the
bit values. -/
theorem foldl_add_dotBit (l : List Nat) (a : Nat) :
    l.foldl (fun code dot => code + dotBit dot) a = a + (l.map dotBit).sum := by
  induction l generalizing a with
  | nil => simp
  | cons d ds ih => simp [List.foldl, ih, Nat.add_assoc]

/-- The encoder is `0x2800` plus the sum of the per-dot bit values. -/
theorem dotsToUnicode_eq_sum (l : List Nat) :
    dotsToUnicode l = 0x2800 + (l.map dotBit).sum :=
  foldl_add_dotBit l 0x2800

/-- A successful association-list lookup returns one of the stored
values. -/
theorem lookup_mem_values {β : Type} (l : List (Char × β)) (a : Char) (b : β)
    (h : l.lookup a = some b) : b ∈ l.map Prod.snd := by
  induction l with
  | nil => simp [List.lookup] at h
  | cons hd tl ih =>
      obtain ⟨k, v⟩ := hd
      rw [List.lookup] at h
      by_cases hq : a == k
      · rw [hq] at h
        simp at h
        simp [h]
      · rw [Bool.not_eq_true] at hq
        rw [hq] at h
        simp [ih h]

/-- Characters with different code points are different. -/
theorem char_toNat_ne {c d : Char} (h : c.toNat ≠ d.toNat) : c ≠ d :=
  fun he => h (he ▸ rfl)

/-- An association-list lookup misses when the key differs from every
stored key. -/
theorem lookup_none_of_forall_ne {β : Type} (l : List (Char × β)) (c : Char)
    (h : ∀ p ∈ l, c ≠ p.1) : l.lookup c = none := by
  induction l with
  | nil => rfl
  | cons hd tl ih =>
      obtain ⟨k, v⟩ := hd
      rw [List.lookup]
      have hk : c ≠ k := h (k, v) (List.mem_cons_self _ _)
      rw [show (c == k) = false from beq_eq_false_iff_ne.mpr hk]
      exact ih (fun p hp => h p (List.mem_cons_of_mem _ hp))

/-- For dot numbers 1..8 the switch increment is the corresponding power
of two. -/
theorem dotBit_eq_pow {d : Nat} (h1 : 1 ≤ d) (h2 : d ≤ 8) : dotBit d = 2 ^ (d - 1) := by
  interval_cases d <;> rfl

/-- On a duplicate-free list of dot numbers 1..8 the sum of bit values is
the bitmask with exactly the bits of the members set. -/
theorem sum_map_dotBit_eq_mask (l : List Nat) (hnd : l.Nodup)
    (hmem : ∀ d ∈ l, 1 ≤ d ∧ d ≤ 8) :
    (l.map dotBit).sum = ∑ k ∈ Finset.range 8, (if k + 1 ∈ l then 2 ^ k else 0) := by
  induction l with
  | nil => simp
  | cons d ds ih =>
      obtain ⟨hd1, hd8⟩ := hmem d (List.mem_cons_self _ _)
      have hnotin : d ∉ ds := (List.nodup_cons.mp hnd).1
      have hnds : ds.Nodup := (List.nodup_cons.mp hnd).2
      have hmem' : ∀ x ∈ ds, 1 ≤ x ∧ x ≤ 8 := fun x hx => hmem x (List.mem_cons_of_mem _ hx)
      rw [List.map_cons, List.sum_cons, ih hnds hmem']
      have hsplit : ∀ k ∈ Finset.range 8,
          (if k + 1 ∈ d :: ds then 2 ^ k else 0)
            = (if k + 1 = d then 2 ^ k else 0) + (if k + 1 ∈ ds then 2 ^ k else 0) := by
        intro k _
        by_cases he : k + 1 = d
        · have hni : k + 1 ∉ ds := he ▸ hnotin
          simp [List.mem_cons, he, hni]
          exact hnotin
        · by_cases hm : k + 1 ∈ ds <;> simp [List.mem_cons, he, hm]
      rw [Finset.sum_congr rfl hsplit, Finset.sum_add_distrib]
      congr 1
      have hre : ∀ k ∈ Finset.range 8,
          (if k + 1 = d then 2 ^ k else 0) = (if k = d - 1 then 2 ^ (d - 1) else 0) := by
        intro k _
        by_cases he : k + 1 = d
        · have hk : k = d - 1 := by omega
          subst hk
          simp [he]
        · have hk : k ≠ d - 1 := by omega
          simp [he, hk]
      rw [Finset.sum_congr rfl hre, Finset.sum_ite_eq' (Finset.range 8) (d - 1) (fun _ => 2 ^ (d - 1))]
      rw [if_pos (Finset.mem_range.mpr (by omega))]
      exact dotBit_eq_pow hd1 hd8

/-- A Korean table hit preserves the character, derives the code point
from the stored dots, and yields one of the stored dots lists. -/
theorem convertKoreanChar_spec {c : Char} {p : BraillePattern}
    (h : convertKoreanChar c = some p) :
    p.char = c ∧ p.unicode = dotsToUnicode p.dots ∧ p.dots ∈ koreanBrailleMap.map Prod.snd := by
  unfold convertKoreanChar at h
  cases hl : koreanBrailleMap.lookup c with
  | none => rw [hl] at h; exact absurd h (by simp)
  | some ds =>
      rw [hl] at h
      injection h with h
      subst h
      exact ⟨rfl, rfl, lookup_mem_values _ _ _ hl⟩

/-- A Japanese table hit preserves the character, derives the code point
from the stored dots, and yields one of the stored dots lists. -/
theorem convertJapaneseChar_spec {c : Char} {p : BraillePattern}
    (h : convertJapaneseChar c = some p) :
    p.char = c ∧ p.unicode = dotsToUnicode p.dots ∧ p.dots ∈ japaneseBrailleMap.map Prod.snd := by
  unfold convertJapaneseChar at h
  cases hl : japaneseBrailleMap.lookup c with
  | none => rw [hl] at h; exact absurd h (by simp)
  | some ds =>
      rw [hl] at h
      injection h with h
      subst h
      exact ⟨rfl, rfl, lookup_mem_values _ _ _ hl⟩

/-- An English table hit preserves the character, derives the code point
from the stored dots, and yields one of the stored dots lists. -/
theorem convertEnglishChar_spec {c : Char} {p : BraillePattern}
    (h : convertEnglishChar c = some p) :
    p.char = c ∧ p.unicode = dotsToUnicode p.dots ∧ p.dots ∈ englishBrailleMap.map Prod.snd := by
  unfold convertEnglishChar at h
  cases hl : englishBrailleMap.lookup c with
  | none => rw [hl] at h; exact absurd h (by simp)
  | some ds =>
      rw [hl] at h
      injection h with h
      subst h
      exact ⟨rfl, rfl, lookup_mem_values _ _ _ hl⟩

/-- A punctuation table hit preserves the character, derives the code
point from the stored dots, and yields one of the stored dots lists. -/
theorem convertPunctuation_spec {c : Char} {p : BraillePattern}
    (h : convertPunctuation c = some p) :
    p.char = c ∧ p.unicode = dotsToUnicode p.dots ∧ p.dots ∈ punctuationMap.map Prod.snd := by
  unfold convertPunctuation at h
  cases hl : punctuationMap.lookup c with
  | none => rw [hl] at h; exact absurd h (by simp)
  | some ds =>
      rw [hl] at h
      injection h with h
      subst h
      exact ⟨rfl, rfl, lookup_mem_values _ _ _ hl⟩

/-- A pattern produced by the dispatch chain preserves the character,
derives its code point from its dots, and carries stored table dots. -/
theorem classifyPattern_spec {c : Char} {p : BraillePattern}
    (h : classifyPattern c = some p) :
    p.char = c ∧ p.unicode = dotsToUnicode p.dots ∧ p.dots ∈ allDotLists := by
  unfold classifyPattern at h
  have hall : ∀ x : List Nat,
      x ∈ koreanBrailleMap.map Prod.snd ∨ x ∈ japaneseBrailleMap.map Prod.snd ∨
        x ∈ englishBrailleMap.map Prod.snd ∨ x ∈ punctuationMap.map Prod.snd →
      x ∈ allDotLists := by
    intro x hx
    unfold allDotLists
    simp only [List.map_append, List.mem_append]
    tauto
  split at h
  · obtain ⟨h1, h2, h3⟩ := convertKoreanChar_spec h
    exact ⟨h1, h2, hall _ (Or.inl h3)⟩
  · split at h
    · obtain ⟨h1, h2, h3⟩ := convertJapaneseChar_spec h
      exact ⟨h1, h2, hall _ (Or.inr (Or.inl h3))⟩
    · split at h
      · obtain ⟨h1, h2, h3⟩ := convertEnglishChar_spec h
        exact ⟨h1, h2, hall _ (Or.inr (Or.inr (Or.inl h3)))⟩
      · obtain ⟨h1, h2, h3⟩ := convertPunctuation_spec h
        exact ⟨h1, h2, hall _ (Or.inr (Or.inr (Or.inr h3)))⟩

/-- Every converted record is the space record, the newline record, or a
record whose code point is derived from its dots, the dots being either
the fallback pair or a stored table entry. -/
theorem convertChar_shape (c : Char) :
    convertChar c = { char := c, unicode := 0x20, dots := [] } ∨
    convertChar c = { char := c, unicode := 0x0A, dots := [] } ∨
    ((convertChar c).char = c ∧
      (convertChar c).unicode = dotsToUnicode (convertChar c).dots ∧
      ((convertChar c).dots = [2, 6] ∨ (convertChar c).dots ∈ allDotLists)) := by
  unfold convertChar
  split
  · exact Or.inl rfl
  · split
    · exact Or.inr (Or.inl rfl)
    · right; right
      cases hp : classifyPattern c with
      | none => simp [hp]
      | some p =>
          obtain ⟨h1, h2, h3⟩ := classifyPattern_spec hp
          simp only [hp]
          exact ⟨h1, h2, Or.inr h3⟩

/-- The loop body always keeps the original character in the record. -/
theorem convertChar_char (c : Char) : (convertChar c).char = c := by
  rcases convertChar_shape c with h | h | h
  · rw [h]
  · rw [h]
  · exact h.1

/-- The conversion is the per-character map, whatever the language
argument. -/
theorem convertToBraille_eq_map (text : List Char) (lang : Option Language) :
    convertToBraille text lang = text.map convertChar := rfl

/-- C1: for every input text, `convertToBraille` returns exactly one
record per input character, in input order, never dropping or reordering
characters; each record's character field equals the corresponding input
character, and the output length equals the input character count. -/
theorem convertToBraille_one_record_per_char (text : List Char) (lang : Option Language) :
    (convertToBraille text lang).length = text.length ∧
    (convertToBraille text lang).map BraillePattern.char = text := by
  constructor
  · simp [convertToBraille]
  · rw [convertToBraille_eq_map, List.map_map]
    have h : ∀ c ∈ text, (BraillePattern.char ∘ convertChar) c = id c :=
      fun c _ => convertChar_char c
    rw [List.map_congr_left h, List.map_id]

/-- C2: for every duplicate-free list of dot numbers drawn from 1..8,
`dotsToUnicode` returns the code point `0x2800 + bitmask`, where bit
`k - 1` is set (contributing `2 ^ (k - 1)`) exactly when dot `k` is a
member; the empty set yields `0x2800`. -/
theorem dotsToUnicode_bitmask (dots : List Nat) (hnd : dots.Nodup)
    (hmem : ∀ d ∈ dots, 1 ≤ d ∧ d ≤ 8) :
    dotsToUnicode dots = 0x2800 + ∑ k ∈ Finset.range 8, (if k + 1 ∈ dots then 2 ^ k else 0) := by
  rw [dotsToUnicode_eq_sum, sum_map_dotBit_eq_mask dots hnd hmem]

/-- Witness for C2: the bitmask rule at the empty set (yielding `0x2800`)
and at the set with dots 1 and 2 (yielding `0x2803`). -/
theorem dotsToUnicode_bitmask_witness :
    (dotsToUnicode [] = 0x2800 + ∑ k ∈ Finset.range 8,
      (if k + 1 ∈ ([] : List Nat) then 2 ^ k else 0)) ∧
    dotsToUnicode [] = 0x2800 ∧
    (dotsToUnicode [1, 2] = 0x2800 + ∑ k ∈ Finset.range 8,
      (if k + 1 ∈ ([1, 2] : List Nat) then 2 ^ k else 0)) ∧
    dotsToUnicode [1, 2] = 0x2803 :=
  ⟨dotsToUnicode_bitmask [] (by decide) (by decide), by decide,
   dotsToUnicode_bitmask [1, 2] (by decide) (by decide), by decide⟩

/-- C3 counterexample: converting the single uppercase letter U yields one
record whose dots list `[6, 1, 3, 6]` repeats dot 6 — so the record's dots
are not distinct — and whose code point `0x2845` differs from
`0x2800 + bitmask` of its dots (`0x2825`): the claimed invariant fails on
an uppercase-letter table entry. -/
theorem uppercase_record_duplicate_dots :
    convertToBraille ['U'] none = [{ char := 'U', unicode := 0x2845, dots := [6, 1, 3, 6] }] ∧
    ¬ ([6, 1, 3, 6] : List Nat).Nodup ∧
    (0x2845 : Nat) ≠ 0x2800 + ∑ k ∈ Finset.range 8,
      (if k + 1 ∈ ([6, 1, 3, 6] : List Nat) then 2 ^ k else 0) :=
  ⟨by decide, by decide, by decide⟩

set_option maxRecDepth 40000 in
/-- C3 amended: every record produced by `convertToBraille` has dots that
are values in 1..8, though not necessarily distinct (uppercase letters
U-Z, several digits and Korean precomposed-syllable entries repeat dots);
its code point is the space or newline character for whitespace records
and otherwise equals `0x2800` plus the SUM of the per-dot bit values of
its dots list — which coincides with the bit-packing rule only for
duplicate-free dots lists. -/
theorem record_dots_in_range_sum_rule (text : List Char) (lang : Option Language)
    (r : BraillePattern) (h : r ∈ convertToBraille text lang) :
    (∀ d ∈ r.dots, 1 ≤ d ∧ d ≤ 8) ∧
    (r.unicode = 0x20 ∨ r.unicode = 0x0A ∨ r.unicode = 0x2800 + (r.dots.map dotBit).sum) := by
  rw [convertToBraille_eq_map] at h
  obtain ⟨c, hc, rfl⟩ := List.mem_map.mp h
  have hrange : ∀ l ∈ allDotLists, ∀ d ∈ l, 1 ≤ d ∧ d ≤ 8 := by decide
  rcases convertChar_shape c with hs | hs | ⟨h1, h2, h3⟩
  · rw [hs]; exact ⟨by simp, Or.inl rfl⟩
  · rw [hs]; exact ⟨by simp, Or.inr (Or.inl rfl)⟩
  · refine ⟨?_, Or.inr (Or.inr ?_)⟩
    · rcases h3 with h3 | h3
      · rw [h3]; decide
      · exact hrange _ h3
    · rw [h2, dotsToUnicode_eq_sum]

/-- Witness for C3 amended: the record of the Korean precomposed syllable
with repeated dots satisfies the amended invariant. -/
theorem record_dots_in_range_sum_rule_witness :
    (∀ d ∈ (convertChar '녕').dots, 1 ≤ d ∧ d ≤ 8) ∧
    ((convertChar '녕').unicode = 0x20 ∨ (convertChar '녕').unicode = 0x0A ∨
      (convertChar '녕').unicode = 0x2800 + ((convertChar '녕').dots.map dotBit).sum) :=
  record_dots_in_range_sum_rule ['녕'] none (convertChar '녕') (by decide)

/-- C4: `convertToBraille` is total — one record per input character — and
any character matched by no rule and no table produces the fallback
record with dots `[2, 6]` and the original character unchanged. -/
theorem convertToBraille_total_with_fallback (text : List Char) (lang : Option Language)
    (c : Char) (h : unmatchedChar c) :
    (convertToBraille text lang).length = text.length ∧
    convertChar c = { char := c, unicode := dotsToUnicode [2, 6], dots := [2, 6] } := by
  obtain ⟨hsp, htab, hnl, hk, hj, he, hp⟩ := h
  constructor
  · simp [convertToBraille]
  · unfold convertChar
    rw [if_neg (by tauto), if_neg hnl]
    have hcl : classifyPattern c = none := by
      unfold classifyPattern
      split
      · unfold convertKoreanChar; rw [hk]
      · split
        · unfold convertJapaneseChar; rw [hj]
        · split
          · unfold convertEnglishChar; rw [he]
          · unfold convertPunctuation; rw [hp]
    rw [hcl]

/-- Witness for C4: the unmapped summation symbol yields the fallback
record with dots `[2, 6]` and its own character. -/
theorem convertToBraille_total_with_fallback_witness :
    (convertToBraille ['∑'] none).length = ['∑'].length ∧
    convertChar '∑' = { char := '∑', unicode := dotsToUnicode [2, 6], dots := [2, 6] } :=
  convertToBraille_total_with_fallback ['∑'] none '∑' (by decide)

/-- C5: `detectLanguage` agrees with the claimed decision procedure: three
presence booleans (Hangul syllable, kana, Latin letter); `mixed` when two
or more are true, the corresponding single tag when exactly one is true,
and `english` when none is true. -/
theorem detectLanguage_correct (text : List Char) :
    detectLanguage text = detectLanguageSpec text := by
  unfold detectLanguage detectLanguageSpec
  cases h1 : text.any isHangulSyllable <;> cases h2 : text.any isKana <;>
    cases h3 : text.any isLatinLetter <;> simp

/-- C6: the output of `convertToBraille` is identical for every choice of
the optional language argument; conversion is the per-character map, so
classification depends only on each character's own script. -/
theorem convertToBraille_ignores_language (text : List Char) (l1 l2 : Option Language) :
    convertToBraille text l1 = convertToBraille text l2 ∧
    convertToBraille text l1 = text.map convertChar :=
  ⟨rfl, rfl⟩

set_option maxRecDepth 100000 in
/-- C7: for each of the 26 ASCII uppercase letters (code points 65 + n),
the converted record's dot set is the union of dot 6 with the dot set of
the corresponding lowercase letter (code points 97 + n), in one single
combined record; for each ASCII digit (code points 48 + n), the record's
dot set is the union of the numeric indicator dots 3,4,5,6 with the dot
set of the shape letter (a..i for 1..9 and j for 0). -/
theorem uppercase_digit_combined_cell :
    (∀ n, n ≤ 25 →
      (convertChar (Char.ofNat (65 + n))).dots.toFinset
        = insert 6 (convertChar (Char.ofNat (97 + n))).dots.toFinset ∧
      (convertToBraille [Char.ofNat (65 + n)] none).length = 1) ∧
    (∀ n, n ≤ 9 →
      (convertChar (Char.ofNat (48 + n))).dots.toFinset
        = {3, 4, 5, 6} ∪ (convertChar (Char.ofNat (if n = 0 then 106 else 96 + n))).dots.toFinset ∧
      (convertToBraille [Char.ofNat (48 + n)] none).length = 1) := by
  constructor <;> decide

/-- Witness for C7: the letter U (whose base letter u already contains
dot 6) and the digit 3 (shape letter c). -/
theorem uppercase_digit_combined_cell_witness :
    ((convertChar (Char.ofNat (65 + 20))).dots.toFinset
      = insert 6 (convertChar (Char.ofNat (97 + 20))).dots.toFinset ∧
     (convertToBraille [Char.ofNat (65 + 20)] none).length = 1) ∧
    ((convertChar (Char.ofNat (48 + 3))).dots.toFinset
      = {3, 4, 5, 6} ∪ (convertChar (Char.ofNat (if 3 = 0 then 106 else 96 + 3))).dots.toFinset ∧
     (convertToBraille [Char.ofNat (48 + 3)] none).length = 1) :=
  ⟨uppercase_digit_combined_cell.1 20 (by decide), uppercase_digit_combined_cell.2 3 (by decide)⟩

/-- C8: `dotsToUnicode` is order-independent: permuted dots lists encode
to the same code point (stated, as in the claim, for duplicate-free lists
of dot numbers in 1..8, though the proof needs only the permutation). -/
theorem dotsToUnicode_perm (l1 l2 : List Nat) (hnd : l1.Nodup)
    (hmem : ∀ d ∈ l1, 1 ≤ d ∧ d ≤ 8) (hperm : l1.Perm l2) :
    dotsToUnicode l1 = dotsToUnicode l2 := by
  rw [dotsToUnicode_eq_sum, dotsToUnicode_eq_sum]
  exact congrArg (0x2800 + ·) (hperm.map dotBit).sum_eq

/-- Witness for C8: the two orderings of dots 1 and 2 encode equally. -/
theorem dotsToUnicode_perm_witness : dotsToUnicode [2, 1] = dotsToUnicode [1, 2] :=
  dotsToUnicode_perm [2, 1] [1, 2] (by decide) (by decide) (by decide)

set_option maxRecDepth 40000 in
/-- C9: every record produced by `convertToBraille` has a code point that
is the space character, the newline character, or lies in the Braille
Patterns block `0x2800..0x28FF` — including records built from table
entries whose dots lists repeat dot numbers. -/
theorem record_codepoint_in_braille_block (text : List Char) (lang : Option Language)
    (r : BraillePattern) (h : r ∈ convertToBraille text lang) :
    r.unicode = 0x20 ∨ r.unicode = 0x0A ∨ (0x2800 ≤ r.unicode ∧ r.unicode ≤ 0x28FF) := by
  rw [convertToBraille_eq_map] at h
  obtain ⟨c, hc, rfl⟩ := List.mem_map.mp h
  have hbound : ∀ l ∈ allDotLists, dotsToUnicode l ≤ 0x28FF := by decide
  rcases convertChar_shape c with hs | hs | ⟨h1, h2, h3⟩
  · rw [hs]; exact Or.inl rfl
  · rw [hs]; exact Or.inr (Or.inl rfl)
  · right; right
    constructor
    · rw [h2, dotsToUnicode_eq_sum]; exact Nat.le_add_right _ _
    · rw [h2]
      rcases h3 with h3 | h3
      · rw [h3]; decide
      · exact hbound _ h3

/-- Witness for C9: the record of the letter U, an entry with a repeated
dot number, stays in the Braille Patterns block. -/
theorem record_codepoint_in_braille_block_witness :
    (convertChar 'U').unicode = 0x20 ∨ (convertChar 'U').unicode = 0x0A ∨
      (0x2800 ≤ (convertChar 'U').unicode ∧ (convertChar 'U').unicode ≤ 0x28FF) :=
  record_codepoint_in_braille_block ['U'] none (convertChar 'U') (by decide)

/-- C10: every Hangul compatibility jamo (code points 0x3131..0x3163)
converts to the fallback record with dots `[2, 6]`, because the Korean
branch is gated on the Hangul syllable block and no other branch covers
jamo — even though the Korean table itself has entries for jamo such as
the first consonant (dots `[1, 4]`) and the first vowel (dots
`[1, 2, 6]`), which are therefore unreachable from `convertToBraille`. -/
theorem jamo_falls_back (c : Char) (h1 : 0x3131 ≤ c.toNat) (h2 : c.toNat ≤ 0x3163) :
    convertChar c = { char := c, unicode := dotsToUnicode [2, 6], dots := [2, 6] } ∧
    koreanBrailleMap.lookup 'ㄱ' = some [1, 4] ∧ koreanBrailleMap.lookup 'ㅏ' = some [1, 2, 6] := by
  refine ⟨?_, by decide, by decide⟩
  have hsp : c ≠ ' ' := char_toNat_ne (by have hv : (' ' : Char).toNat = 32 := rfl; omega)
  have htab : c ≠ '\t' := char_toNat_ne (by have hv : ('\t' : Char).toNat = 9 := rfl; omega)
  have hnl : c ≠ '\n' := char_toNat_ne (by have hv : ('\n' : Char).toNat = 10 := rfl; omega)
  have hhang : isHangulSyllable c = false := by
    simp only [isHangulSyllable, Bool.and_eq_false_iff, decide_eq_false_iff_not]
    omega
  have hkana : isKana c = false := by
    simp only [isKana, Bool.or_eq_false_iff, Bool.and_eq_false_iff, decide_eq_false_iff_not]
    omega
  have halnum : isAlphanumeric c = false := by
    simp only [isAlphanumeric, isLatinLetter, Bool.or_eq_false_iff, Bool.and_eq_false_iff,
      decide_eq_false_iff_not]
    omega
  have hkeys : ∀ p ∈ punctuationMap, p.1.toNat < 0x3131 := by decide
  have hpunct : punctuationMap.lookup c = none :=
    lookup_none_of_forall_ne _ _ (fun p hp => char_toNat_ne (by have := hkeys p hp; omega))
  unfold convertChar
  rw [if_neg (by tauto), if_neg hnl]
  have hcl : classifyPattern c = none := by
    unfold classifyPattern
    rw [hhang, hkana, halnum]
    simp only [Bool.false_eq_true, if_false]
    unfold convertPunctuation
    rw [hpunct]
  rw [hcl]

/-- Witness for C10: the first compatibility jamo consonant falls back to
the dots `[2, 6]` record although the Korean table maps it. -/
theorem jamo_falls_back_witness :
    convertChar 'ㄱ' = { char := 'ㄱ', unicode := dotsToUnicode [2, 6], dots := [2, 6] } ∧
    koreanBrailleMap.lookup 'ㄱ' = some [1, 4] ∧ koreanBrailleMap.lookup 'ㅏ' = some [1, 2, 6] :=
  jamo_falls_back 'ㄱ' (by decide) (by decide)

end VibeBraille
